import Mathlib

/-!
A verification development for the `neat` neuro-evolution core
(`network.go`, with the queue and config helpers).  The Go code is shallowly
embedded: Go maps become association lists with in-place replacement on key
collision, Go `float64` numerics become `ℚ`, the two global `uint64` counters
become an explicit `Counters` state threaded through the creation functions
(with wrap-around modulo 2^64), the injected `rand.Float64` source becomes an
explicit rational argument, and aborting control flow (`log.Fatal`, nil
pointer dereference) becomes explicit error results.

Genes in the source are pointers shared between the organism's maps and its
ordered gene list; the embedding stores the value in both places.  The two
views coincide for organisms whose gene state has not been mutated after
insertion, which is the regime exercised by all the statements below: signal
propagation reads and writes only the maps, while cloning and mating read
only the gene list of freshly built parents.
-/

namespace Neat

/-- In-order association-list lookup; models Go map indexing `m[k]`, with
`none` for Go's zero value (nil pointer) on a missing key. -/
def mapLookup {α : Type} (m : List (Nat × α)) (k : Nat) : Option α :=
  match m with
  | [] => none
  | (k0, v0) :: rest => if k0 = k then some v0 else mapLookup rest k

/-- Association-list insertion; models Go map assignment `m[k] = v`
(replace in place when the key is present, append otherwise). -/
def mapInsert {α : Type} (m : List (Nat × α)) (k : Nat) (v : α) : List (Nat × α) :=
  match m with
  | [] => [(k, v)]
  | (k0, v0) :: rest => if k0 = k then (k, v) :: rest else (k0, v0) :: mapInsert rest k v

/-- 2^64, the modulus of Go's `uint64` counters. -/
def U64 : Nat := 2 ^ 64

/-- The two global counters `idCount` and `innovationCount` of `network.go`,
made explicit state. -/
structure Counters where
  idCount : Nat
  innovationCount : Nat
  deriving DecidableEq

/-- `nextID`: `atomic.AddUint64(&idCount, 1)` returns the incremented value. -/
def nextID (c : Counters) : Nat × Counters :=
  let v := (c.idCount + 1) % U64
  (v, { c with idCount := v })

/-- `nextInnovation`: `atomic.AddUint64(&innovationCount, 1)`. -/
def nextInnovation (c : Counters) : Nat × Counters :=
  let v := (c.innovationCount + 1) % U64
  (v, { c with innovationCount := v })

/-- The three neuron kinds of `network.go`. -/
inductive NeuronKind : Type
  | sensorNeuron
  | outputNeuron
  | hiddenNeuron
  deriving DecidableEq

/-- The `neuron` struct: gene fields (`id`, `value`, `innovation`, `kind`)
and per-evaluation topology fields (`future`, `sum`, `visited`, `seen`). -/
structure Neuron where
  id : Nat
  value : ℚ
  innovation : Nat
  kind : NeuronKind
  future : ℚ
  sum : ℚ
  visited : Bool
  seen : Bool
  deriving DecidableEq

/-- The `synapse` struct; `in_` renders the Go field `in` (a Lean keyword). -/
structure Synapse where
  id : Nat
  in_ : Nat
  out : Nat
  weight : ℚ
  enabled : Bool
  innovation : Nat
  deriving DecidableEq

/-- `_newNeuron`: fresh id, fresh innovation number, zeroed state. -/
def _newNeuron (kind : NeuronKind) (c : Counters) : Neuron × Counters :=
  let (i, c1) := nextID c
  let (v, c2) := nextInnovation c1
  (⟨i, 0, v, kind, 0, 0, false, false⟩, c2)

/-- `newSensorNeuron`. -/
def newSensorNeuron (c : Counters) : Neuron × Counters :=
  _newNeuron NeuronKind.sensorNeuron c

/-- `newOutputNeuron`. -/
def newOutputNeuron (c : Counters) : Neuron × Counters :=
  _newNeuron NeuronKind.outputNeuron c

/-- `newHiddenNeuron`. -/
def newHiddenNeuron (c : Counters) : Neuron × Counters :=
  _newNeuron NeuronKind.hiddenNeuron c

/-- `newSynapse(in, out)`: fresh id, weight 1.0, enabled, fresh innovation. -/
def newSynapse (inN outN : Neuron) (c : Counters) : Synapse × Counters :=
  let (i, c1) := nextID c
  let (v, c2) := nextInnovation c1
  (⟨i, inN.id, outN.id, 1, true, v⟩, c2)

/-- `neuron.clone`: `copyNeuron := *n` — a plain value copy. -/
def Neuron.clone (n : Neuron) : Neuron := n

/-- `synapse.clone`: a plain value copy. -/
def Synapse.clone (s : Synapse) : Synapse := s

/-- The relevant slice of `OrganismConfig`: the weight bound used by
`mutateWeight` and the injected activation function used by `propagate`.
The mutation probabilities and the activation-function name registry are
not consumed by any operation modelled here. -/
structure OrganismConfig where
  SynapseWeightBound : ℚ
  actFunc : ℚ → ℚ

/-- `synapse.mutateWeight`: `s.weight = 2 * ((RandFloat64() - 0.5) * bound)`;
the random draw is the explicit argument `rand`. -/
def Synapse.mutateWeight (s : Synapse) (cfg : OrganismConfig) (rand : ℚ) : Synapse :=
  { s with weight := 2 * ((rand - 0.5) * cfg.SynapseWeightBound) }

/-- `synapse.toggleEnabled`. -/
def Synapse.toggleEnabled (s : Synapse) : Synapse :=
  { s with enabled := !s.enabled }

/-- The `gene` interface: a neuron or a synapse, as stored in the ordered
gene sequence. -/
inductive Gene : Type
  | neuronGene (n : Neuron)
  | synapseGene (s : Synapse)
  deriving DecidableEq

/-- `gene.getInnovation`, dispatching to the neuron or synapse field. -/
def Gene.getInnovation : Gene → Nat
  | Gene.neuronGene n => n.innovation
  | Gene.synapseGene s => s.innovation

/-- The `organism` struct. -/
structure Organism where
  sensors : List Nat
  outputs : List Nat
  neurons : List (Nat × Neuron)
  synapses : List (Nat × Synapse)
  connections : List (Nat × List Nat)
  genes : List Gene
  generation : Int
  fitness : ℚ
  deriving DecidableEq

/-- `_newOrganism(nInputs, nOutputs)`: an empty organism (the two arguments
only pre-size Go slices and have no observable effect). -/
def _newOrganism (_nInputs _nOutputs : Nat) : Organism :=
  ⟨[], [], [], [], [], [], 0, 0⟩

/-- `organism.addNeuron`: register in the neuron map, append the gene, and
record the id in the sensor or output list according to kind. -/
def Organism.addNeuron (org : Organism) (n : Neuron) : Organism :=
  { org with
    neurons := mapInsert org.neurons n.id n
    genes := org.genes ++ [Gene.neuronGene n]
    sensors := match n.kind with
      | NeuronKind.sensorNeuron => org.sensors ++ [n.id]
      | _ => org.sensors
    outputs := match n.kind with
      | NeuronKind.outputNeuron => org.outputs ++ [n.id]
      | _ => org.outputs }

/-- `organism.addSynapse`: register in the synapse map, append the synapse id
to the source neuron's adjacency list, append the gene. -/
def Organism.addSynapse (org : Organism) (s : Synapse) : Organism :=
  { org with
    synapses := mapInsert org.synapses s.id s
    connections := mapInsert org.connections s.in_ ((mapLookup org.connections s.in_).getD [] ++ [s.id])
    genes := org.genes ++ [Gene.synapseGene s] }

/-- Insert a gene through `addNeuron`/`addSynapse`, the type switch shared by
`clone` and `mate`. -/
def Organism.addGene (org : Organism) : Gene → Organism
  | Gene.neuronGene n => org.addNeuron n
  | Gene.synapseGene s => org.addSynapse s

/-- `organism.clone`: a fresh empty organism, replaying the gene sequence
through `addNeuron`/`addSynapse` with value copies (generation and fitness
are not copied). -/
def Organism.clone (org : Organism) : Organism :=
  List.foldl Organism.addGene (_newOrganism org.sensors.length org.outputs.length) org.genes

/-- `organism.getNeuron`: bare map indexing; `none` is Go's nil result for a
missing id. -/
def Organism.getNeuron (org : Organism) (id : Nat) : Option Neuron :=
  mapLookup org.neurons id

/-- `organism.getSynapse`: bare map indexing; `none` is Go's nil result. -/
def Organism.getSynapse (org : Organism) (id : Nat) : Option Synapse :=
  mapLookup org.synapses id

/-- `organism.synapseEndpoints`: looks the synapse up and dereferences it for
its endpoint ids.  When the synapse id is absent the Go code dereferences a
nil pointer and the process crashes; the outer `none` models that abort.
The two inner options are the (nil-able) endpoint map lookups Go returns. -/
def Organism.synapseEndpoints (org : Organism) (id : Nat) : Option (Option Neuron × Option Neuron) :=
  match org.getSynapse id with
  | none => none
  | some s => some (mapLookup org.neurons s.in_, mapLookup org.neurons s.out)

/-- The abort branch of `mate`: `log.Fatal` on mismatched sensor or output
counts. -/
inductive MateError : Type
  | arityMismatch
  deriving DecidableEq

/-- The gene-merge loop of `mate`, recursing over the two parents' gene
sequences exactly as the cursor loop does: equal innovation numbers take the
fitter parent's gene (ties to `b`) and advance both cursors, a strictly lower
innovation number takes that parent's gene and advances only its cursor, and
an exhausted parent yields the rest of the other.  (The source's final
`log.Fatal("Out of genes …")` branch requires both cursors exhausted inside
the loop and is unreachable.) -/
def mergeGenes (fitA fitB : ℚ) : List Gene → List Gene → List Gene
  | [], bs => bs
  | a :: as_, [] => a :: as_
  | a :: as_, b :: bs =>
    if a.getInnovation = b.getInnovation then
      (if fitA > fitB then a else b) :: mergeGenes fitA fitB as_ bs
    else if a.getInnovation < b.getInnovation then
      a :: mergeGenes fitA fitB as_ (b :: bs)
    else
      b :: mergeGenes fitA fitB (a :: as_) bs

/-- `mate(a, b)`: abort on mismatched arity, otherwise fold the merged gene
sequence (structural value copies) into an empty offspring whose generation
is `a.generation + 1`. -/
def mate (a b : Organism) : Except MateError Organism :=
  if a.sensors.length ≠ b.sensors.length ∨ a.outputs.length ≠ b.outputs.length then
    Except.error MateError.arityMismatch
  else
    Except.ok (List.foldl Organism.addGene
      { _newOrganism a.sensors.length a.outputs.length with generation := a.generation + 1 }
      (mergeGenes a.fitness b.fitness a.genes b.genes))

/-- Failure modes of `process`/`propagate`.  `arityMismatch` and
`visitedNeuron` are the two `log.Fatal` branches of the source;
`missingRef` is a nil map lookup that the source would immediately
dereference (a crash); `fuelExhausted` marks the modelling fuel running out
and corresponds to no source behaviour. -/
inductive ProcError : Type
  | arityMismatch
  | visitedNeuron (id : Nat)
  | missingRef
  | fuelExhausted
  deriving DecidableEq

/-- The output-reading loop at the end of `process`:
`out[i] = org.neurons[id].value` over the output list; a missing output id
is a nil dereference. -/
def readOutputs (neurons : List (Nat × Neuron)) : List Nat → Option (List ℚ)
  | [] => some []
  | id :: rest =>
    match mapLookup neurons id with
    | none => none
    | some n => (readOutputs neurons rest).map (n.value :: ·)

/-- The per-call neuron reset at the top of `process`:
`sum, future = future, 0; visited = false; seen = false`. -/
def clearNeuron (n : Neuron) : Neuron :=
  { n with sum := n.future, future := 0, visited := false, seen := false }

/-- The sensor-loading loop of `process`: `org.neurons[id].sum += input[i]`
over the sensor list; a missing sensor id is a nil dereference. -/
def addInputs (neurons : List (Nat × Neuron)) : List (Nat × ℚ) → Option (List (Nat × Neuron))
  | [] => some neurons
  | (id, v) :: rest =>
    match mapLookup neurons id with
    | none => none
    | some n => addInputs (mapInsert neurons id { n with sum := n.sum + v }) rest

/-- The inner loop of `propagate` over the popped neuron's outgoing synapse
ids: enabled synapses send `signal = value * weight` to their target,
accumulating into `future` when the target is already visited, otherwise
into `sum`, enqueueing the target (FIFO append) when it is not yet `seen`.
Returns the updated neuron map and queue. -/
def propagateConns (value : ℚ) (synapses : List (Nat × Synapse)) :
    List Nat → List (Nat × Neuron) → List Nat → Except ProcError (List (Nat × Neuron) × List Nat)
  | [], neurons, queue => Except.ok (neurons, queue)
  | sid :: rest, neurons, queue =>
    match mapLookup synapses sid with
    | none => Except.error ProcError.missingRef
    | some syn =>
      if syn.enabled then
        let signal := value * syn.weight
        match mapLookup neurons syn.out with
        | none => Except.error ProcError.missingRef
        | some outN =>
          if outN.visited then
            propagateConns value synapses rest
              (mapInsert neurons syn.out { outN with future := outN.future + signal }) queue
          else
            if outN.seen then
              propagateConns value synapses rest
                (mapInsert neurons syn.out { outN with sum := outN.sum + signal }) queue
            else
              propagateConns value synapses rest
                (mapInsert neurons syn.out { outN with sum := outN.sum + signal, seen := true })
                (queue ++ [syn.out])
      else
        propagateConns value synapses rest neurons queue

/-- The queue loop of `propagate`: pop a neuron id, fail fatally if it is
already visited (`log.Fatal("Found visited neuron …")`), otherwise mark it
visited, compute `value = actFunc(sum)`, and run the synapse loop.  The
`fuel` argument is a modelling device bounding the iteration count; every
run below supplies `sensors.length + neurons.length + 1`, an upper bound on
the number of pops the source can perform (each push beyond the initial
sensor pushes flips a distinct neuron's `seen` flag). -/
def propagateLoop (cfg : OrganismConfig) (synapses : List (Nat × Synapse))
    (connections : List (Nat × List Nat)) :
    Nat → List (Nat × Neuron) → List Nat → Except ProcError (List (Nat × Neuron))
  | _, neurons, [] => Except.ok neurons
  | 0, _, _ :: _ => Except.error ProcError.fuelExhausted
  | fuel + 1, neurons, nid :: queue =>
    match mapLookup neurons nid with
    | none => Except.error ProcError.missingRef
    | some n =>
      if n.visited then
        Except.error (ProcError.visitedNeuron nid)
      else
        let value := cfg.actFunc n.sum
        let neurons1 := mapInsert neurons nid { n with visited := true, value := value }
        match propagateConns value synapses ((mapLookup connections nid).getD []) neurons1 queue with
        | Except.error e => Except.error e
        | Except.ok (neurons2, queue2) => propagateLoop cfg synapses connections fuel neurons2 queue2

/-- The heart of `process`, parameterized over exactly the organism fields
the source reads (sensor list, output list, and the three maps): clear every
neuron, load the inputs, run `propagate` (whose queue starts as the sensor
list, *without* setting `seen`), and read the output neurons' values. -/
def processCore (cfg : OrganismConfig) (sensors outputs : List Nat)
    (synapses : List (Nat × Synapse)) (connections : List (Nat × List Nat))
    (neurons : List (Nat × Neuron)) (input : List ℚ) :
    Except ProcError (List (Nat × Neuron) × List ℚ) :=
  if input.length ≠ sensors.length then
    Except.error ProcError.arityMismatch
  else
    let cleared := neurons.map (fun p => (p.1, clearNeuron p.2))
    match addInputs cleared (sensors.zip input) with
    | none => Except.error ProcError.missingRef
    | some loaded =>
      match propagateLoop cfg synapses connections (sensors.length + neurons.length + 1) loaded sensors with
      | Except.error e => Except.error e
      | Except.ok final =>
        match readOutputs final outputs with
        | none => Except.error ProcError.missingRef
        | some out => Except.ok (final, out)

/-- `organism.process(input)`: run the core on the organism's fields and
store the updated neuron map back into the organism. -/
def Organism.process (cfg : OrganismConfig) (org : Organism) (input : List ℚ) :
    Except ProcError (Organism × List ℚ) :=
  (processCore cfg org.sensors org.outputs org.synapses org.connections org.neurons input).map
    (fun p => ({ org with neurons := p.1 }, p.2))

/-- Drive `process` over a whole input sequence, collecting the output
vector of every step (stopping at the first failure). -/
def Organism.processSeq (cfg : OrganismConfig) (org : Organism) :
    List (List ℚ) → Except ProcError (List (List ℚ))
  | [] => Except.ok []
  | input :: rest =>
    match Organism.process cfg org input with
    | Except.error e => Except.error e
    | Except.ok (org1, out) => (Organism.processSeq cfg org1 rest).map (out :: ·)

/-- The sensor- and output-creation loops of `newOrganism`: n iterations of
`org.addNeuron(_newNeuron(kind))`. -/
def addKindNeurons (kind : NeuronKind) : Nat → Organism × Counters → Organism × Counters
  | 0, s => s
  | n + 1, (org, c) =>
    let (nn, c1) := _newNeuron kind c
    addKindNeurons kind n (org.addNeuron nn, c1)

/-- The wiring loop of `newOrganism`: for `i` counting down `k` iterations,
`addSynapse(newSynapse(neurons[sensors[i % nInputs]], neurons[outputs[i % nOutputs]]))`.
A failed index or map lookup is a nil dereference inside `newSynapse`
(and `i % 0` is Go's division-by-zero panic), modelled as `none`. -/
def wireSynapses (nInputs nOutputs : Nat) : Nat → Nat → Organism × Counters → Option (Organism × Counters)
  | _, 0, s => some s
  | i, k + 1, (org, c) =>
    if nInputs = 0 then none
    else if nOutputs = 0 then none
    else
      match org.sensors.get? (i % nInputs) with
      | none => none
      | some sid =>
        match org.outputs.get? (i % nOutputs) with
        | none => none
        | some oid =>
          match mapLookup org.neurons sid, mapLookup org.neurons oid with
          | some inN, some outN =>
            let (s, c1) := newSynapse inN outN c
            wireSynapses nInputs nOutputs (i + 1) k (org.addSynapse s, c1)
          | _, _ => none

/-- `newOrganism(nInputs, nOutputs)`: create the sensors, create the
outputs, then wire sensor `i % nInputs` to output `i % nOutputs` for
`i < max nInputs nOutputs`. -/
def newOrganism (nInputs nOutputs : Nat) (c : Counters) : Option (Organism × Counters) :=
  wireSynapses nInputs nOutputs 0 (max nInputs nOutputs)
    (addKindNeurons NeuronKind.outputNeuron nOutputs
      (addKindNeurons NeuronKind.sensorNeuron nInputs (_newOrganism nInputs nOutputs, c)))

/-- Organisms reachable from `_newOrganism` through `addNeuron`,
`addSynapse`, and external assignment of the generation/fitness bookkeeping —
the construction discipline every organism of the source obeys. -/
inductive Built : Organism → Prop
  | empty (nI nO : Nat) : Built (_newOrganism nI nO)
  | addN (org : Organism) (n : Neuron) : Built org → Built (org.addNeuron n)
  | addS (org : Organism) (s : Synapse) : Built org → Built (org.addSynapse s)
  | meta (org : Organism) (g : Int) (f : ℚ) :
      Built org → Built { org with generation := g, fitness := f }

/-- The ids of the sensor-kind neuron genes of a gene sequence, in order:
the sensor list `addNeuron` accumulates while replaying the sequence. -/
def sensorIds (gs : List Gene) : List Nat :=
  gs.filterMap fun g => match g with
    | Gene.neuronGene n => if n.kind = NeuronKind.sensorNeuron then some n.id else none
    | Gene.synapseGene _ => none

/-- The ids of the output-kind neuron genes of a gene sequence, in order. -/
def outputIds (gs : List Gene) : List Nat :=
  gs.filterMap fun g => match g with
    | Gene.neuronGene n => if n.kind = NeuronKind.outputNeuron then some n.id else none
    | Gene.synapseGene _ => none

/-- The organism fields `process`/`propagate` read and write: everything
except the gene sequence, the generation and the fitness. -/
def procState (org : Organism) :
    List Nat × List Nat × List (Nat × Neuron) × List (Nat × Synapse) × List (Nat × List Nat) :=
  (org.sensors, org.outputs, org.neurons, org.synapses, org.connections)

/-- Discriminates the two gene variants. -/
inductive GeneTag : Type
  | neuronTag
  | synapseTag
  deriving DecidableEq

/-- A gene's (innovation number, variant) pair. -/
def geneKey : Gene → Nat × GeneTag
  | Gene.neuronGene n => (n.innovation, GeneTag.neuronTag)
  | Gene.synapseGene s => (s.innovation, GeneTag.synapseTag)

/-- The test configuration: weight bound 5.0 and the identity activation
function (`testConfig` of `network_test.go`). -/
def cfgId : OrganismConfig := ⟨5, fun x => x⟩

/-- The recurrent genome of `createSimpleRecurrent` in `network_test.go`:
sensor → hidden → output with a hidden → sensor feedback synapse, all
enabled with weight 1.0, built with the counters starting at 0. -/
def createSimpleRecurrent (c : Counters) : Organism × Counters :=
  let org := _newOrganism 1 1
  let (sensor, c1) := newSensorNeuron c
  let (hidden, c2) := newHiddenNeuron c1
  let (output, c3) := newOutputNeuron c2
  let org1 := ((org.addNeuron sensor).addNeuron hidden).addNeuron output
  let (s1, c4) := newSynapse sensor hidden c3
  let (s2, c5) := newSynapse hidden sensor c4
  let (s3, c6) := newSynapse hidden output c5
  (((org1.addSynapse s1).addSynapse s2).addSynapse s3, c6)

/-- The concrete recurrent genome used below. -/
def simpleRecurrent : Organism := (createSimpleRecurrent ⟨0, 0⟩).1

/-- A genome with two sensor neurons and one enabled synapse from the first
sensor to the second; every synapse endpoint is present in the neuron map. -/
def twoSensorLoop : Organism :=
  (((_newOrganism 2 0).addNeuron ⟨1, 0, 1, NeuronKind.sensorNeuron, 0, 0, false, false⟩).addNeuron
      ⟨2, 0, 2, NeuronKind.sensorNeuron, 0, 0, false, false⟩).addSynapse
    ⟨3, 1, 2, 1, true, 3⟩

/-- C2: for the recurrent genome with synapses sensor→hidden, hidden→sensor,
hidden→output, all enabled with weight 1.0, identity activation, and all
accumulators initially zero, `process` on the input sequence
[1], [0], [0], [1] returns the outputs [1], [1], [1], [2]: each step's
output is the running sum of the inputs so far, the cyclic contribution
along hidden→sensor being deferred through `future` by exactly one step. -/
theorem c2_recurrent_delay_outputs :
    Organism.processSeq cfgId simpleRecurrent [[1], [0], [0], [1]] =
      Except.ok [[1], [1], [1], [2]] := by
  norm_num [Organism.processSeq, Organism.process, processCore, propagateLoop, propagateConns,
    addInputs, clearNeuron, readOutputs, mapLookup, mapInsert, simpleRecurrent, createSimpleRecurrent,
    _newOrganism, _newNeuron, newSensorNeuron, newHiddenNeuron, newOutputNeuron, newSynapse,
    nextID, nextInnovation, U64, Organism.addNeuron, Organism.addSynapse, cfgId,
    Except.map, Option.map, Option.getD]

/-- C1 (refuting run): `propagate` pushes the sensor neurons without marking
them `seen`, so in a genome whose synapse endpoints are all present in the
neuron map — two sensors and one enabled sensor→sensor synapse — the second
sensor is enqueued twice (once at initialization and once when the synapse
is traversed) and its second pop reaches the fatal
`log.Fatal("Found visited neuron …")` branch. -/
theorem c1_visited_fatal_reachable :
    Organism.process cfgId twoSensorLoop [0, 0] =
      Except.error (ProcError.visitedNeuron 2) := by
  rfl

theorem mapLookup_eq_none {α : Type} {m : List (Nat × α)} {k : Nat}
    (h : ∀ p ∈ m, p.1 ≠ k) : mapLookup m k = none := by
  induction m with
  | nil => rfl
  | cons p rest ih =>
    obtain ⟨k0, v0⟩ := p
    have hk : k0 ≠ k := h (k0, v0) (List.mem_cons_self _ _)
    simp only [mapLookup, if_neg hk]
    exact ih fun q hq => h q (List.mem_cons_of_mem _ hq)

/-- C3 (counterexample): at the empty organism and the absent id 1, the
lookups do not fail with a NotFound condition returned as a typed error:
`getNeuron` and `getSynapse` return Go's nil zero value for a missing map
key (the plain `none`, an ordinary value), and `synapseEndpoints`
dereferences the nil synapse — the outer `none`, a crash of the process. -/
theorem c3_lookups_return_nil_or_abort :
    Organism.getNeuron (_newOrganism 1 1) 1 = none ∧
    Organism.getSynapse (_newOrganism 1 1) 1 = none ∧
    Organism.synapseEndpoints (_newOrganism 1 1) 1 = none := by
  refine ⟨rfl, rfl, rfl⟩

/-- C3 (amended): for every organism and every id absent from the
corresponding mapping, `getNeuron` and `getSynapse` return Go's nil zero
value (not a typed error), and `synapseEndpoints` dereferences the nil
synapse and aborts the process; no NotFound error value is produced. -/
theorem c3_amended_absent_id_nil_or_abort (org : Organism) (id : Nat)
    (hn : ∀ p ∈ org.neurons, p.1 ≠ id) (hs : ∀ p ∈ org.synapses, p.1 ≠ id) :
    Organism.getNeuron org id = none ∧
    Organism.getSynapse org id = none ∧
    Organism.synapseEndpoints org id = none := by
  have h1 : Organism.getNeuron org id = none := mapLookup_eq_none hn
  have h2 : Organism.getSynapse org id = none := mapLookup_eq_none hs
  refine ⟨h1, h2, ?_⟩
  simp only [Organism.synapseEndpoints, h2]

/-- Witness for `c3_amended_absent_id_nil_or_abort` at the empty organism
and id 1. -/
theorem c3_amended_witness :
    Organism.getNeuron (_newOrganism 2 2) 1 = none ∧
    Organism.getSynapse (_newOrganism 2 2) 1 = none ∧
    Organism.synapseEndpoints (_newOrganism 2 2) 1 = none :=
  c3_amended_absent_id_nil_or_abort (_newOrganism 2 2) 1
    (by intro p hp; simp [_newOrganism] at hp)
    (by intro p hp; simp [_newOrganism] at hp)

/-- C4 (counterexample): with configured bound 1 (> 0) and the random draw
0 (a value of [0,1)), the resampled weight is `2 * ((0 - 0.5) * 1) = -1`,
which is *not* strictly inside the open interval (−bound, bound): the open
lower bound is attained. -/
theorem c4_weight_attains_lower_bound :
    ((0:ℚ) ≤ 0 ∧ (0:ℚ) < 1) ∧ (0:ℚ) < 1 ∧
    (Synapse.mutateWeight ⟨1, 1, 2, 1, true, 1⟩ ⟨1, fun x => x⟩ 0).weight = -1 ∧
    ¬(-1 < (Synapse.mutateWeight ⟨1, 1, 2, 1, true, 1⟩ ⟨1, fun x => x⟩ 0).weight) := by
  norm_num [Synapse.mutateWeight]

/-- C4 (amended): for every weight-resample with configured bound > 0 and a
random draw in [0,1), the new weight lies in the *half-open* interval
[−bound, bound): `−bound ≤ weight < bound`, the lower end being attained
exactly at a zero draw. -/
theorem c4_amended_weight_in_half_open (s : Synapse) (cfg : OrganismConfig) (r : ℚ)
    (h0 : 0 ≤ r) (h1 : r < 1) (hb : 0 < cfg.SynapseWeightBound) :
    -cfg.SynapseWeightBound ≤ (s.mutateWeight cfg r).weight ∧
      (s.mutateWeight cfg r).weight < cfg.SynapseWeightBound := by
  simp only [Synapse.mutateWeight]
  constructor
  · nlinarith [mul_le_mul_of_nonneg_right h0 (le_of_lt hb)]
  · nlinarith [mul_lt_mul_of_pos_right h1 hb]

/-- Witness for `c4_amended_weight_in_half_open` at the draw 1/2 and
bound 1. -/
theorem c4_amended_witness :
    (0:ℚ) ≤ 1/2 ∧ (1/2:ℚ) < 1 ∧ (0:ℚ) < 1 ∧
    (-1 ≤ (Synapse.mutateWeight ⟨1, 1, 2, 1, true, 1⟩ ⟨1, fun x => x⟩ (1/2)).weight ∧
      (Synapse.mutateWeight ⟨1, 1, 2, 1, true, 1⟩ ⟨1, fun x => x⟩ (1/2)).weight < 1) :=
  ⟨by norm_num, by norm_num, by norm_num,
    c4_amended_weight_in_half_open ⟨1, 1, 2, 1, true, 1⟩ ⟨1, fun x => x⟩ (1/2)
      (by norm_num) (by norm_num) (by norm_num)⟩

theorem addGene_genes (org : Organism) (g : Gene) :
    (org.addGene g).genes = org.genes ++ [g] := by
  cases g <;> rfl

theorem addGene_generation (org : Organism) (g : Gene) :
    (org.addGene g).generation = org.generation := by
  cases g <;> rfl

theorem addGene_sensors (org : Organism) (g : Gene) :
    (org.addGene g).sensors = org.sensors ++ sensorIds [g] := by
  cases g with
  | neuronGene n =>
    cases hk : n.kind <;>
      simp [Organism.addGene, Organism.addNeuron, sensorIds, hk]
  | synapseGene s => simp [Organism.addGene, Organism.addSynapse, sensorIds]

theorem addGene_outputs (org : Organism) (g : Gene) :
    (org.addGene g).outputs = org.outputs ++ outputIds [g] := by
  cases g with
  | neuronGene n =>
    cases hk : n.kind <;>
      simp [Organism.addGene, Organism.addNeuron, outputIds, hk]
  | synapseGene s => simp [Organism.addGene, Organism.addSynapse, outputIds]

theorem sensorIds_append (gs hs : List Gene) :
    sensorIds (gs ++ hs) = sensorIds gs ++ sensorIds hs := by
  simp [sensorIds, List.filterMap_append]

theorem outputIds_append (gs hs : List Gene) :
    outputIds (gs ++ hs) = outputIds gs ++ outputIds hs := by
  simp [outputIds, List.filterMap_append]

theorem foldl_addGene_genes (gs : List Gene) (org : Organism) :
    (List.foldl Organism.addGene org gs).genes = org.genes ++ gs := by
  induction gs generalizing org with
  | nil => simp
  | cons g rest ih => simp [List.foldl_cons, ih, addGene_genes]

theorem foldl_addGene_generation (gs : List Gene) (org : Organism) :
    (List.foldl Organism.addGene org gs).generation = org.generation := by
  induction gs generalizing org with
  | nil => rfl
  | cons g rest ih => simp [List.foldl_cons, ih, addGene_generation]

theorem foldl_addGene_sensors (gs : List Gene) (org : Organism) :
    (List.foldl Organism.addGene org gs).sensors = org.sensors ++ sensorIds gs := by
  induction gs generalizing org with
  | nil => simp [sensorIds]
  | cons g rest ih =>
    have : sensorIds (g :: rest) = sensorIds [g] ++ sensorIds rest := sensorIds_append [g] rest
    simp [List.foldl_cons, ih, addGene_sensors, this]

theorem foldl_addGene_outputs (gs : List Gene) (org : Organism) :
    (List.foldl Organism.addGene org gs).outputs = org.outputs ++ outputIds gs := by
  induction gs generalizing org with
  | nil => simp [outputIds]
  | cons g rest ih =>
    have : outputIds (g :: rest) = outputIds [g] ++ outputIds rest := outputIds_append [g] rest
    simp [List.foldl_cons, ih, addGene_outputs, this]

/-- Replaying a built organism's gene sequence from an empty organism — the
body of `clone` — reconstructs the organism except for generation and
fitness, which `_newOrganism` leaves at zero. -/
theorem built_clone {g : Organism} (hb : Built g) :
    Organism.clone g = { g with generation := 0, fitness := 0 } := by
  induction hb with
  | empty nI nO => rfl
  | addN org n _ ih =>
    show List.foldl Organism.addGene (_newOrganism _ _) (org.genes ++ [Gene.neuronGene n]) = _
    rw [List.foldl_append]
    show Organism.addGene (Organism.clone org) (Gene.neuronGene n) = _
    rw [ih]
    rfl
  | addS org s _ ih =>
    show List.foldl Organism.addGene (_newOrganism _ _) (org.genes ++ [Gene.synapseGene s]) = _
    rw [List.foldl_append]
    show Organism.addGene (Organism.clone org) (Gene.synapseGene s) = _
    rw [ih]
    rfl
  | meta org gen fit _ ih =>
    show List.foldl Organism.addGene (_newOrganism _ _) org.genes = _
    exact ih

/-- A built organism's sensor list is exactly the sensor-kind neuron ids of
its gene sequence, in order. -/
theorem built_sensors {g : Organism} (hb : Built g) : g.sensors = sensorIds g.genes := by
  have h := congrArg Organism.sensors (built_clone hb)
  rw [Organism.clone, foldl_addGene_sensors] at h
  simpa using h.symm

/-- A built organism's output list is exactly the output-kind neuron ids of
its gene sequence, in order. -/
theorem built_outputs {g : Organism} (hb : Built g) : g.outputs = outputIds g.genes := by
  have h := congrArg Organism.outputs (built_clone hb)
  rw [Organism.clone, foldl_addGene_outputs] at h
  simpa using h.symm

theorem mem_mergeGenes {fa fb : ℚ} {l1 l2 : List Gene} {g : Gene}
    (h : g ∈ mergeGenes fa fb l1 l2) : g ∈ l1 ∨ g ∈ l2 := by
  induction l1, l2 using mergeGenes.induct fa fb with
  | case1 bs => rw [mergeGenes] at h; exact Or.inr h
  | case2 a as_ => rw [mergeGenes] at h; exact Or.inl h
  | case3 a as_ b bs heq ih =>
    rw [mergeGenes, if_pos heq] at h
    rcases List.mem_cons.mp h with hg | hg
    · by_cases hf : fa > fb
      · rw [if_pos hf] at hg
        exact Or.inl (hg ▸ List.mem_cons_self _ _)
      · rw [if_neg hf] at hg
        exact Or.inr (hg ▸ List.mem_cons_self _ _)
    · rcases ih hg with h' | h'
      · exact Or.inl (List.mem_cons_of_mem _ h')
      · exact Or.inr (List.mem_cons_of_mem _ h')
  | case4 a as_ b bs heq hlt ih =>
    rw [mergeGenes, if_neg heq, if_pos hlt] at h
    rcases List.mem_cons.mp h with hg | hg
    · exact Or.inl (hg ▸ List.mem_cons_self _ _)
    · rcases ih hg with h' | h'
      · exact Or.inl (List.mem_cons_of_mem _ h')
      · exact Or.inr h'
  | case5 a as_ b bs heq hlt ih =>
    rw [mergeGenes, if_neg heq, if_neg hlt] at h
    rcases List.mem_cons.mp h with hg | hg
    · exact Or.inr (hg ▸ List.mem_cons_self _ _)
    · rcases ih hg with h' | h'
      · exact Or.inl h'
      · exact Or.inr (List.mem_cons_of_mem _ h')

/-- The cursor merge of `mate` preserves strict ascent by innovation
number: merging two strictly ascending gene sequences yields a strictly
ascending sequence. -/
theorem mergeGenes_pairwise {fa fb : ℚ} {l1 l2 : List Gene}
    (h1 : List.Pairwise (fun x y => x.getInnovation < y.getInnovation) l1)
    (h2 : List.Pairwise (fun x y => x.getInnovation < y.getInnovation) l2) :
    List.Pairwise (fun x y => x.getInnovation < y.getInnovation) (mergeGenes fa fb l1 l2) := by
  induction l1, l2 using mergeGenes.induct fa fb with
  | case1 bs => rw [mergeGenes]; exact h2
  | case2 a as_ => rw [mergeGenes]; exact h1
  | case3 a as_ b bs heq ih =>
    rw [mergeGenes, if_pos heq]
    rw [List.pairwise_cons] at h1 h2
    refine List.pairwise_cons.mpr ⟨?_, ih h1.2 h2.2⟩
    intro z hz
    have hhead : (if fa > fb then a else b).getInnovation = a.getInnovation := by
      split
      · rfl
      · exact heq.symm
    rw [hhead]
    rcases mem_mergeGenes hz with h' | h'
    · exact h1.1 z h'
    · exact heq ▸ h2.1 z h'
  | case4 a as_ b bs heq hlt ih =>
    rw [mergeGenes, if_neg heq, if_pos hlt]
    rw [List.pairwise_cons] at h1
    refine List.pairwise_cons.mpr ⟨?_, ih h1.2 h2⟩
    intro z hz
    rcases mem_mergeGenes hz with h' | h'
    · exact h1.1 z h'
    · rcases List.mem_cons.mp h' with hzb | hzb
      · exact hzb ▸ hlt
      · exact lt_trans hlt ((List.pairwise_cons.mp h2).1 z hzb)
  | case5 a as_ b bs heq hlt ih =>
    rw [mergeGenes, if_neg heq, if_neg hlt]
    have hgt : b.getInnovation < a.getInnovation := by
      rcases Nat.lt_trichotomy a.getInnovation b.getInnovation with h | h | h
      · exact absurd h hlt
      · exact absurd h heq
      · exact h
    rw [List.pairwise_cons] at h2
    refine List.pairwise_cons.mpr ⟨?_, ih h1 h2.2⟩
    intro z hz
    rcases mem_mergeGenes hz with h' | h'
    · rcases List.mem_cons.mp h' with hza | hza
      · exact hza ▸ hgt
      · exact lt_trans hgt ((List.pairwise_cons.mp h1).1 z hza)
    · exact h2.1 z h'

/-- Merging a gene sequence with itself returns it unchanged: every
position is homologous and both the fitter-parent copy and the other copy
are the same value. -/
theorem mergeGenes_self (fa fb : ℚ) (l : List Gene) : mergeGenes fa fb l l = l := by
  induction l with
  | nil => rw [mergeGenes]
  | cons x xs ih => rw [mergeGenes, if_pos rfl, ite_self, ih]

/-- When no innovation number is shared between the two parents, the merge
of `mate` keeps every gene of both: the result is a permutation of the
concatenation. -/
theorem mergeGenes_perm_of_disjoint {fa fb : ℚ} {l1 l2 : List Gene}
    (hdisj : ∀ x ∈ l1, ∀ y ∈ l2, x.getInnovation ≠ y.getInnovation) :
    (mergeGenes fa fb l1 l2).Perm (l1 ++ l2) := by
  induction l1, l2 using mergeGenes.induct fa fb with
  | case1 bs => rw [mergeGenes]; exact List.Perm.refl bs
  | case2 a as_ => rw [mergeGenes, List.append_nil]
  | case3 a as_ b bs heq ih =>
    exact absurd heq (hdisj a (List.mem_cons_self _ _) b (List.mem_cons_self _ _))
  | case4 a as_ b bs heq hlt ih =>
    rw [mergeGenes, if_neg heq, if_pos hlt, List.cons_append]
    exact (ih fun x hx y hy => hdisj x (List.mem_cons_of_mem _ hx) y hy).cons a
  | case5 a as_ b bs heq hlt ih =>
    rw [mergeGenes, if_neg heq, if_neg hlt]
    have h1 : (mergeGenes fa fb (a :: as_) bs).Perm ((a :: as_) ++ bs) :=
      ih fun x hx y hy => hdisj x hx y (List.mem_cons_of_mem _ hy)
    exact (h1.cons b).trans (List.perm_middle.symm)

/-- When the arity check passes, `mate` returns the fold of the merged gene
sequence into an empty offspring with generation `a.generation + 1`. -/
theorem mate_ok (a b : Organism) (hs : a.sensors.length = b.sensors.length)
    (ho : a.outputs.length = b.outputs.length) :
    mate a b = Except.ok (List.foldl Organism.addGene
      { _newOrganism a.sensors.length a.outputs.length with generation := a.generation + 1 }
      (mergeGenes a.fitness b.fitness a.genes b.genes)) := by
  rw [mate, if_neg]
  push_neg
  exact ⟨hs, ho⟩

theorem mate_genes {a b off : Organism} (h : mate a b = Except.ok off) :
    off.genes = mergeGenes a.fitness b.fitness a.genes b.genes := by
  rw [mate] at h
  split at h
  · exact absurd h (by simp)
  · cases h
    rw [foldl_addGene_genes]
    rfl

/-- The test genome is reachable by the construction operations. -/
theorem built_simpleRecurrent : Built simpleRecurrent :=
  Built.addS _ _ (Built.addS _ _ (Built.addS _ _
    (Built.addN _ _ (Built.addN _ _ (Built.addN _ _ (Built.empty 1 1))))))

/-- C5: for two genomes whose gene sequences are strictly ascending by
innovation number and whose sensor and output counts match, `mate`
succeeds and the offspring's gene sequence is strictly ascending by
innovation number — the merge interleaves the two sorted parent sequences
and keeps one copy on matching innovation numbers. -/
theorem c5_mate_sorted (a b : Organism)
    (ha : List.Pairwise (fun x y => x.getInnovation < y.getInnovation) a.genes)
    (hb : List.Pairwise (fun x y => x.getInnovation < y.getInnovation) b.genes)
    (hs : a.sensors.length = b.sensors.length)
    (ho : a.outputs.length = b.outputs.length) :
    ∃ off, mate a b = Except.ok off ∧
      List.Pairwise (fun x y => x.getInnovation < y.getInnovation) off.genes := by
  refine ⟨_, mate_ok a b hs ho, ?_⟩
  rw [foldl_addGene_genes]
  show List.Pairwise _ ([] ++ mergeGenes a.fitness b.fitness a.genes b.genes)
  rw [List.nil_append]
  exact mergeGenes_pairwise ha hb

/-- Witness for `c5_mate_sorted` at the recurrent test genome mated with
itself. -/
theorem c5_mate_sorted_witness :
    List.Pairwise (fun x y => x.getInnovation < y.getInnovation) simpleRecurrent.genes ∧
    ∃ off, mate simpleRecurrent simpleRecurrent = Except.ok off ∧
      List.Pairwise (fun x y => x.getInnovation < y.getInnovation) off.genes :=
  ⟨by decide, c5_mate_sorted simpleRecurrent simpleRecurrent (by decide) (by decide) rfl rfl⟩

/-- C6: the cursor behaviour of `mate`'s merge loop, stated on `mergeGenes`
(the embedded loop) and tied to `mate`.  On equal innovation numbers, a's
gene is inherited exactly when `a.fitness > b.fitness` (ties resolve to b)
and both cursors advance; on a strictly lower innovation number that
parent's gene is inherited and only its cursor advances; an exhausted
parent leaves the remaining genes of the other, taken one at a time; and a
successful `mate` builds its offspring's gene sequence exactly from this
merge. -/
theorem c6_mate_inheritance :
    (∀ (fa fb : ℚ) (x y : Gene) (xs ys : List Gene),
        x.getInnovation = y.getInnovation →
        mergeGenes fa fb (x :: xs) (y :: ys) =
          (if fa > fb then x else y) :: mergeGenes fa fb xs ys) ∧
    (∀ (fa fb : ℚ) (x y : Gene) (xs ys : List Gene),
        x.getInnovation < y.getInnovation →
        mergeGenes fa fb (x :: xs) (y :: ys) = x :: mergeGenes fa fb xs (y :: ys)) ∧
    (∀ (fa fb : ℚ) (x y : Gene) (xs ys : List Gene),
        y.getInnovation < x.getInnovation →
        mergeGenes fa fb (x :: xs) (y :: ys) = y :: mergeGenes fa fb (x :: xs) ys) ∧
    (∀ (fa fb : ℚ) (ys : List Gene), mergeGenes fa fb [] ys = ys) ∧
    (∀ (fa fb : ℚ) (x : Gene) (xs : List Gene), mergeGenes fa fb (x :: xs) [] = x :: xs) ∧
    (∀ a b off, mate a b = Except.ok off →
        off.genes = mergeGenes a.fitness b.fitness a.genes b.genes) := by
  refine ⟨?_, ?_, ?_, ?_, ?_, fun a b off h => mate_genes h⟩
  · intro fa fb x y xs ys heq
    rw [mergeGenes, if_pos heq]
  · intro fa fb x y xs ys hlt
    rw [mergeGenes, if_neg (Nat.ne_of_lt hlt), if_pos hlt]
  · intro fa fb x y xs ys hgt
    rw [mergeGenes, if_neg (Nat.ne_of_gt hgt), if_neg (Nat.lt_asymm hgt)]
  · intro fa fb ys
    rw [mergeGenes]
  · intro fa fb x xs
    rw [mergeGenes]

/-- A synapse gene with innovation number 5. -/
def gSyn5 : Gene := Gene.synapseGene ⟨10, 1, 2, 1, true, 5⟩

/-- A hidden-neuron gene with innovation number 5. -/
def gNeu5 : Gene := Gene.neuronGene ⟨11, 0, 5, NeuronKind.hiddenNeuron, 0, 0, false, false⟩

/-- A synapse gene with innovation number 3. -/
def gSyn3 : Gene := Gene.synapseGene ⟨12, 1, 2, 1, true, 3⟩

/-- Witness for `c6_mate_inheritance`, instantiating every conjunct at
concrete genes and a concrete successful mating. -/
theorem c6_mate_inheritance_witness :
    (gSyn5.getInnovation = gNeu5.getInnovation ∧
      mergeGenes 1 0 [gSyn5] [gNeu5] =
        (if (1:ℚ) > 0 then gSyn5 else gNeu5) :: mergeGenes 1 0 [] []) ∧
    (gSyn3.getInnovation < gNeu5.getInnovation ∧
      mergeGenes 0 0 [gSyn3] [gNeu5] = gSyn3 :: mergeGenes 0 0 [] [gNeu5]) ∧
    (gSyn3.getInnovation < gSyn5.getInnovation ∧
      mergeGenes 0 0 [gSyn5] [gSyn3] = gSyn3 :: mergeGenes 0 0 [gSyn5] []) ∧
    mergeGenes 0 0 [] [gNeu5] = [gNeu5] ∧
    mergeGenes 0 0 [gSyn3] [] = [gSyn3] ∧
    (mate simpleRecurrent simpleRecurrent =
        Except.ok (List.foldl Organism.addGene
          { _newOrganism 1 1 with generation := 1 }
          (mergeGenes 0 0 simpleRecurrent.genes simpleRecurrent.genes)) →
      (List.foldl Organism.addGene
          { _newOrganism 1 1 with generation := 1 }
          (mergeGenes 0 0 simpleRecurrent.genes simpleRecurrent.genes)).genes =
        mergeGenes simpleRecurrent.fitness simpleRecurrent.fitness
          simpleRecurrent.genes simpleRecurrent.genes) :=
  ⟨⟨rfl, c6_mate_inheritance.1 1 0 gSyn5 gNeu5 [] [] rfl⟩,
   ⟨by decide, c6_mate_inheritance.2.1 0 0 gSyn3 gNeu5 [] [] (by decide)⟩,
   ⟨by decide, c6_mate_inheritance.2.2.1 0 0 gSyn5 gSyn3 [] [] (by decide)⟩,
   c6_mate_inheritance.2.2.2.1 0 0 [gNeu5],
   c6_mate_inheritance.2.2.2.2.1 0 0 gSyn3 [],
   fun h => c6_mate_inheritance.2.2.2.2.2 simpleRecurrent simpleRecurrent _ h⟩

/-- C7: mating a genome (with strictly ascending gene sequence) with its
own clone yields an offspring with exactly the same set of
(innovation number, gene kind) pairs — every gene is homologous because the
clone preserves ids and innovation numbers — and generation
`g.generation + 1`. -/
theorem c7_self_crossover (g : Organism) (hbuilt : Built g)
    (_hsort : List.Pairwise (fun x y => x.getInnovation < y.getInnovation) g.genes) :
    ∃ off, mate g (Organism.clone g) = Except.ok off ∧
      (∀ p : Nat × GeneTag, p ∈ off.genes.map geneKey ↔ p ∈ g.genes.map geneKey) ∧
      off.generation = g.generation + 1 := by
  have hc := built_clone hbuilt
  have hs : g.sensors.length = (Organism.clone g).sensors.length := by rw [hc]
  have ho : g.outputs.length = (Organism.clone g).outputs.length := by rw [hc]
  refine ⟨_, mate_ok g (Organism.clone g) hs ho, ?_, ?_⟩
  · intro p
    have hgenes : (Organism.clone g).genes = g.genes := by rw [hc]
    rw [foldl_addGene_genes, hgenes, mergeGenes_self]
    simp [_newOrganism]
  · rw [foldl_addGene_generation]

/-- Witness for `c7_self_crossover` at the recurrent test genome. -/
theorem c7_self_crossover_witness :
    List.Pairwise (fun x y => x.getInnovation < y.getInnovation) simpleRecurrent.genes ∧
    ∃ off, mate simpleRecurrent (Organism.clone simpleRecurrent) = Except.ok off ∧
      (∀ p : Nat × GeneTag,
        p ∈ off.genes.map geneKey ↔ p ∈ simpleRecurrent.genes.map geneKey) ∧
      off.generation = simpleRecurrent.generation + 1 :=
  ⟨by decide, c7_self_crossover simpleRecurrent built_simpleRecurrent (by decide)⟩

/-- C10: for two built genomes with equal sensor and output counts but no
innovation number in common, `mate` inherits every gene of both parents —
the offspring's gene sequence is a permutation of the two parents'
concatenated — so the offspring has the *sum* of the parents' sensor counts
and the sum of their output counts: the equal-arity precondition does not
make the offspring preserve the parents' input/output arity. -/
theorem c10_mate_disjoint_sums_arity (a b : Organism)
    (hba : Built a) (hbb : Built b)
    (hs : a.sensors.length = b.sensors.length)
    (ho : a.outputs.length = b.outputs.length)
    (hdisj : ∀ x ∈ a.genes, ∀ y ∈ b.genes, x.getInnovation ≠ y.getInnovation) :
    ∃ off, mate a b = Except.ok off ∧
      off.genes.Perm (a.genes ++ b.genes) ∧
      off.sensors.length = a.sensors.length + b.sensors.length ∧
      off.outputs.length = a.outputs.length + b.outputs.length := by
  have hperm : (mergeGenes a.fitness b.fitness a.genes b.genes).Perm (a.genes ++ b.genes) :=
    mergeGenes_perm_of_disjoint hdisj
  refine ⟨_, mate_ok a b hs ho, ?_, ?_, ?_⟩
  · rw [foldl_addGene_genes]
    show (([] : List Gene) ++ _).Perm _
    rw [List.nil_append]
    exact hperm
  · rw [foldl_addGene_sensors]
    show (([] : List Nat) ++ _).length = _
    rw [List.nil_append]
    have h1 : (sensorIds (mergeGenes a.fitness b.fitness a.genes b.genes)).Perm
        (sensorIds (a.genes ++ b.genes)) := by
      unfold sensorIds
      exact hperm.filterMap _
    rw [h1.length_eq, sensorIds_append, List.length_append,
      ← built_sensors hba, ← built_sensors hbb]
  · rw [foldl_addGene_outputs]
    show (([] : List Nat) ++ _).length = _
    rw [List.nil_append]
    have h1 : (outputIds (mergeGenes a.fitness b.fitness a.genes b.genes)).Perm
        (outputIds (a.genes ++ b.genes)) := by
      unfold outputIds
      exact hperm.filterMap _
    rw [h1.length_eq, outputIds_append, List.length_append,
      ← built_outputs hba, ← built_outputs hbb]

/-- A genome with one sensor and one output, innovation numbers 1 and 2. -/
def orgA : Organism :=
  ((_newOrganism 1 1).addNeuron ⟨1, 0, 1, NeuronKind.sensorNeuron, 0, 0, false, false⟩).addNeuron
    ⟨2, 0, 2, NeuronKind.outputNeuron, 0, 0, false, false⟩

/-- A genome with one sensor and one output, innovation numbers 3 and 4 —
disjoint from `orgA`. -/
def orgB : Organism :=
  ((_newOrganism 1 1).addNeuron ⟨3, 0, 3, NeuronKind.sensorNeuron, 0, 0, false, false⟩).addNeuron
    ⟨4, 0, 4, NeuronKind.outputNeuron, 0, 0, false, false⟩

/-- Witness for `c10_mate_disjoint_sums_arity` at the two concrete
disjoint genomes. -/
theorem c10_mate_disjoint_sums_arity_witness :
    (∀ x ∈ orgA.genes, ∀ y ∈ orgB.genes, x.getInnovation ≠ y.getInnovation) ∧
    ∃ off, mate orgA orgB = Except.ok off ∧
      off.genes.Perm (orgA.genes ++ orgB.genes) ∧
      off.sensors.length = orgA.sensors.length + orgB.sensors.length ∧
      off.outputs.length = orgA.outputs.length + orgB.outputs.length :=
  ⟨by decide,
    c10_mate_disjoint_sums_arity orgA orgB
      (Built.addN _ _ (Built.addN _ _ (Built.empty 1 1)))
      (Built.addN _ _ (Built.addN _ _ (Built.empty 1 1)))
      rfl rfl (by decide)⟩

/-- `process` reads and writes only `procState`: two organisms agreeing on
sensors, outputs and the three maps produce identical output sequences. -/
theorem processSeq_congr (cfg : OrganismConfig) {g h : Organism}
    (hgh : procState g = procState h) (ins : List (List ℚ)) :
    Organism.processSeq cfg g ins = Organism.processSeq cfg h ins := by
  induction ins generalizing g h with
  | nil => rfl
  | cons input rest ih =>
    simp only [procState, Prod.mk.injEq] at hgh
    obtain ⟨e1, e2, e3, e4, e5⟩ := hgh
    have hcore : processCore cfg g.sensors g.outputs g.synapses g.connections g.neurons input =
        processCore cfg h.sensors h.outputs h.synapses h.connections h.neurons input := by
      rw [e1, e2, e3, e4, e5]
    rw [Organism.processSeq, Organism.processSeq, Organism.process, Organism.process, hcore]
    cases hres : processCore cfg h.sensors h.outputs h.synapses h.connections h.neurons input with
    | error e => rfl
    | ok p =>
      have hps : procState { g with neurons := p.1 } = procState { h with neurons := p.1 } := by
        simp [procState, e1, e2, e4, e5]
      simp only [Except.map]
      rw [ih hps]

/-- C8: a built genome's clone, driven by the same input sequence, produces
an output vector identical to the original's at every step.  (The second
half of the claim — that mutating the clone's synapse weights or enabled
flags afterwards leaves the original's outputs unchanged — holds by
construction in this embedding: `clone` builds fresh value copies, exactly
as the Go code copies each gene struct, so the two organisms share no
mutable state that an update could reach.) -/
theorem c8_clone_processes_identically (cfg : OrganismConfig) (g : Organism)
    (hbuilt : Built g) (ins : List (List ℚ)) :
    Organism.processSeq cfg (Organism.clone g) ins = Organism.processSeq cfg g ins := by
  apply processSeq_congr
  rw [built_clone hbuilt]
  rfl

/-- Witness for `c8_clone_processes_identically` at the recurrent test
genome over a two-step input sequence. -/
theorem c8_clone_processes_identically_witness :
    Built simpleRecurrent ∧
    Organism.processSeq cfgId (Organism.clone simpleRecurrent) [[1], [0]] =
      Organism.processSeq cfgId simpleRecurrent [[1], [0]] :=
  ⟨built_simpleRecurrent,
    c8_clone_processes_identically cfgId simpleRecurrent built_simpleRecurrent [[1], [0]]⟩

theorem mapLookup_mem {α : Type} {m : List (Nat × α)} {k : Nat} {v : α}
    (h : mapLookup m k = some v) : (k, v) ∈ m := by
  induction m with
  | nil => simp [mapLookup] at h
  | cons p rest ih =>
    obtain ⟨k0, v0⟩ := p
    rw [mapLookup] at h
    by_cases hk : k0 = k
    · rw [if_pos hk] at h
      injection h with h
      subst hk
      subst h
      exact List.mem_cons_self _ _
    · rw [if_neg hk] at h
      exact List.mem_cons_of_mem _ (ih h)

theorem mapInsert_fresh {α : Type} {m : List (Nat × α)} {k : Nat} {v : α}
    (h : ∀ p ∈ m, p.1 ≠ k) : mapInsert m k v = m ++ [(k, v)] := by
  induction m with
  | nil => rfl
  | cons p rest ih =>
    obtain ⟨k0, v0⟩ := p
    have hk : k0 ≠ k := h (k0, v0) (List.mem_cons_self _ _)
    rw [mapInsert, if_neg hk, List.cons_append]
    rw [ih fun q hq => h q (List.mem_cons_of_mem _ hq)]

theorem mapLookup_append_left {α : Type} {m1 m2 : List (Nat × α)} {k : Nat} {v : α}
    (h : mapLookup m1 k = some v) : mapLookup (m1 ++ m2) k = some v := by
  induction m1 with
  | nil => simp [mapLookup] at h
  | cons p rest ih =>
    obtain ⟨k0, v0⟩ := p
    rw [mapLookup] at h
    rw [List.cons_append, mapLookup]
    by_cases hk : k0 = k
    · rwa [if_pos hk] at h ⊢
    · rw [if_neg hk] at h ⊢
      exact ih h

theorem mapLookup_append_right {α : Type} {m1 m2 : List (Nat × α)} {k : Nat}
    (h : ∀ p ∈ m1, p.1 ≠ k) : mapLookup (m1 ++ m2) k = mapLookup m2 k := by
  induction m1 with
  | nil => rfl
  | cons p rest ih =>
    obtain ⟨k0, v0⟩ := p
    have hk : k0 ≠ k := h (k0, v0) (List.mem_cons_self _ _)
    rw [List.cons_append, mapLookup, if_neg hk]
    exact ih fun q hq => h q (List.mem_cons_of_mem _ hq)

theorem mapLookup_pairs {ns : List Neuron} {j : Nat} {n : Neuron}
    (hnd : List.Pairwise (fun a b => a.id ≠ b.id) ns)
    (hget : ns.get? j = some n) :
    mapLookup (ns.map fun x => (x.id, x)) n.id = some n := by
  induction ns generalizing j with
  | nil => simp at hget
  | cons x rest ih =>
    cases j with
    | zero =>
      rw [List.get?] at hget
      injection hget with hget
      subst hget
      simp [mapLookup]
    | succ j =>
      rw [List.get?] at hget
      have hmem : n ∈ rest := List.get?_mem hget
      have hne : x.id ≠ n.id := (List.pairwise_cons.mp hnd).1 n hmem
      rw [List.map_cons, mapLookup, if_neg hne]
      exact ih (List.pairwise_cons.mp hnd).2 hget

theorem foldl_addSynapse_sensors (l : List Synapse) (org : Organism) :
    (List.foldl Organism.addSynapse org l).sensors = org.sensors := by
  induction l generalizing org with
  | nil => rfl
  | cons s rest ih => exact ih (org.addSynapse s)

theorem foldl_addSynapse_outputs (l : List Synapse) (org : Organism) :
    (List.foldl Organism.addSynapse org l).outputs = org.outputs := by
  induction l generalizing org with
  | nil => rfl
  | cons s rest ih => exact ih (org.addSynapse s)

theorem foldl_addSynapse_neurons (l : List Synapse) (org : Organism) :
    (List.foldl Organism.addSynapse org l).neurons = org.neurons := by
  induction l generalizing org with
  | nil => rfl
  | cons s rest ih => exact ih (org.addSynapse s)

theorem foldl_addNeuron_synapses (ns : List Neuron) (org : Organism) :
    (List.foldl Organism.addNeuron org ns).synapses = org.synapses := by
  induction ns generalizing org with
  | nil => rfl
  | cons n rest ih => exact ih (org.addNeuron n)

theorem foldl_addNeuron_sensors (ns : List Neuron) (org : Organism) :
    (List.foldl Organism.addNeuron org ns).sensors =
      org.sensors ++ ns.filterMap
        (fun n => if n.kind = NeuronKind.sensorNeuron then some n.id else none) := by
  induction ns generalizing org with
  | nil => simp
  | cons n rest ih =>
    rw [List.foldl_cons, ih, List.filterMap_cons]
    have hsen : (org.addNeuron n).sensors =
        org.sensors ++ (if n.kind = NeuronKind.sensorNeuron then [n.id] else []) := by
      cases hk : n.kind <;> simp [Organism.addNeuron, hk]
    rw [hsen]
    cases hk : n.kind <;> simp [hk]

theorem foldl_addNeuron_outputs (ns : List Neuron) (org : Organism) :
    (List.foldl Organism.addNeuron org ns).outputs =
      org.outputs ++ ns.filterMap
        (fun n => if n.kind = NeuronKind.outputNeuron then some n.id else none) := by
  induction ns generalizing org with
  | nil => simp
  | cons n rest ih =>
    rw [List.foldl_cons, ih, List.filterMap_cons]
    have hout : (org.addNeuron n).outputs =
        org.outputs ++ (if n.kind = NeuronKind.outputNeuron then [n.id] else []) := by
      cases hk : n.kind <;> simp [Organism.addNeuron, hk]
    rw [hout]
    cases hk : n.kind <;> simp [hk]

theorem foldl_addNeuron_neurons (ns : List Neuron) (org : Organism)
    (hfresh : ∀ n ∈ ns, ∀ p ∈ org.neurons, p.1 ≠ n.id)
    (hnd : List.Pairwise (fun a b => a.id ≠ b.id) ns) :
    (List.foldl Organism.addNeuron org ns).neurons =
      org.neurons ++ ns.map fun n => (n.id, n) := by
  induction ns generalizing org with
  | nil => simp
  | cons n rest ih =>
    rw [List.foldl_cons, List.map_cons]
    have hins : (org.addNeuron n).neurons = org.neurons ++ [(n.id, n)] :=
      mapInsert_fresh (hfresh n (List.mem_cons_self _ _))
    have hfresh' : ∀ x ∈ rest, ∀ p ∈ (org.addNeuron n).neurons, p.1 ≠ x.id := by
      intro x hx p hp
      rw [hins] at hp
      rcases List.mem_append.mp hp with hp | hp
      · exact hfresh x (List.mem_cons_of_mem _ hx) p hp
      · rcases List.mem_singleton.mp hp with rfl
        exact (List.pairwise_cons.mp hnd).1 x hx
    rw [ih (org.addNeuron n) hfresh' (List.pairwise_cons.mp hnd).2, hins,
      List.append_assoc, List.singleton_append]

theorem foldl_addSynapse_synapses (l : List Synapse) (org : Organism)
    (hfresh : ∀ s ∈ l, ∀ p ∈ org.synapses, p.1 ≠ s.id)
    (hnd : List.Pairwise (fun a b => a.id ≠ b.id) l) :
    (List.foldl Organism.addSynapse org l).synapses =
      org.synapses ++ l.map fun s => (s.id, s) := by
  induction l generalizing org with
  | nil => simp
  | cons s rest ih =>
    rw [List.foldl_cons, List.map_cons]
    have hins : (org.addSynapse s).synapses = org.synapses ++ [(s.id, s)] :=
      mapInsert_fresh (hfresh s (List.mem_cons_self _ _))
    have hfresh' : ∀ x ∈ rest, ∀ p ∈ (org.addSynapse s).synapses, p.1 ≠ x.id := by
      intro x hx p hp
      rw [hins] at hp
      rcases List.mem_append.mp hp with hp | hp
      · exact hfresh x (List.mem_cons_of_mem _ hx) p hp
      · rcases List.mem_singleton.mp hp with rfl
        exact (List.pairwise_cons.mp hnd).1 x hx
    rw [ih (org.addSynapse s) hfresh' (List.pairwise_cons.mp hnd).2, hins,
      List.append_assoc, List.singleton_append]

/-- The list of neurons the creation loop of `newOrganism` produces when no
counter wraps: the k-th has id `idCount + k + 1` and innovation
`innovationCount + k + 1`. -/
def neuronsFromNW (kind : NeuronKind) (c : Counters) (n : Nat) : List Neuron :=
  (List.range n).map fun k =>
    ⟨c.idCount + k + 1, 0, c.innovationCount + k + 1, kind, 0, 0, false, false⟩

theorem neuronsFromNW_succ (kind : NeuronKind) (c : Counters) (n : Nat) :
    neuronsFromNW kind c (n + 1) =
      (⟨c.idCount + 1, 0, c.innovationCount + 1, kind, 0, 0, false, false⟩ : Neuron) ::
        neuronsFromNW kind ⟨c.idCount + 1, c.innovationCount + 1⟩ n := by
  unfold neuronsFromNW
  rw [List.range_succ_eq_map, List.map_cons, List.map_map]
  refine congrArg₂ _ rfl (List.map_congr_left ?_)
  intro k _
  simp [Function.comp, Neuron.mk.injEq]
  omega

theorem addKindNeurons_eq (kind : NeuronKind) (n : Nat) (org : Organism) (c : Counters)
    (h1 : c.idCount + n < U64) (h2 : c.innovationCount + n < U64) :
    addKindNeurons kind n (org, c) =
      (List.foldl Organism.addNeuron org (neuronsFromNW kind c n),
        ⟨c.idCount + n, c.innovationCount + n⟩) := by
  induction n generalizing org c with
  | zero => simp [addKindNeurons, neuronsFromNW]
  | succ n ih =>
    rw [addKindNeurons]
    have hid : (c.idCount + 1) % U64 = c.idCount + 1 := Nat.mod_eq_of_lt (by omega)
    have hin : (c.innovationCount + 1) % U64 = c.innovationCount + 1 :=
      Nat.mod_eq_of_lt (by omega)
    simp only [_newNeuron, nextID, nextInnovation, hid, hin]
    rw [ih (org.addNeuron ⟨c.idCount + 1, 0, c.innovationCount + 1, kind, 0, 0, false, false⟩)
      ⟨c.idCount + 1, c.innovationCount + 1⟩ (by simp; omega) (by simp; omega)]
    rw [neuronsFromNW_succ, List.foldl_cons]
    have e1 : c.idCount + 1 + n = c.idCount + (n + 1) := by omega
    have e2 : c.innovationCount + 1 + n = c.innovationCount + (n + 1) := by omega
    rw [e1, e2]

/-- The list of synapses the wiring loop of `newOrganism` produces when no
counter wraps, starting at loop index `i` for `k` iterations. -/
def wireRange (sensors outputs : List Nat) (nI nO : Nat) : Counters → Nat → Nat → List Synapse
  | _, _, 0 => []
  | c, i, k + 1 =>
    ⟨c.idCount + 1, (sensors.get? (i % nI)).getD 0, (outputs.get? (i % nO)).getD 0,
      1, true, c.innovationCount + 1⟩ ::
      wireRange sensors outputs nI nO ⟨c.idCount + 1, c.innovationCount + 1⟩ (i + 1) k

theorem wireRange_length (sensors outputs : List Nat) (nI nO : Nat) (c : Counters) (i k : Nat) :
    (wireRange sensors outputs nI nO c i k).length = k := by
  induction k generalizing c i with
  | zero => rfl
  | succ k ih => rw [wireRange, List.length_cons, ih]

theorem wireRange_get? (sensors outputs : List Nat) (nI nO : Nat) (c : Counters)
    (i k j : Nat) (hj : j < k) :
    (wireRange sensors outputs nI nO c i k).get? j =
      some ⟨c.idCount + j + 1, (sensors.get? ((i + j) % nI)).getD 0,
        (outputs.get? ((i + j) % nO)).getD 0, 1, true, c.innovationCount + j + 1⟩ := by
  induction k generalizing c i j with
  | zero => omega
  | succ k ih =>
    cases j with
    | zero => simp [wireRange]
    | succ j =>
      rw [wireRange]
      show (wireRange sensors outputs nI nO _ _ k).get? j = _
      rw [ih _ _ j (by omega)]
      have e1 : c.idCount + 1 + j + 1 = c.idCount + (j + 1) + 1 := by omega
      have e2 : i + 1 + j = i + (j + 1) := by omega
      have e3 : c.innovationCount + 1 + j + 1 = c.innovationCount + (j + 1) + 1 := by omega
      rw [e1, e2, e3]

theorem wireRange_id_bounds (sensors outputs : List Nat) (nI nO : Nat) (c : Counters)
    (i k : Nat) :
    ∀ s ∈ wireRange sensors outputs nI nO c i k,
      c.idCount + 1 ≤ s.id ∧ s.id ≤ c.idCount + k := by
  induction k generalizing c i with
  | zero => intro s hs; simp [wireRange] at hs
  | succ k ih =>
    intro s hs
    rw [wireRange] at hs
    rcases List.mem_cons.mp hs with rfl | hs
    · refine ⟨?_, ?_⟩ <;> simp
    · have := ih ⟨c.idCount + 1, c.innovationCount + 1⟩ (i + 1) s hs
      simp at this
      omega

theorem wireRange_pairwise_ne (sensors outputs : List Nat) (nI nO : Nat) (c : Counters)
    (i k : Nat) :
    List.Pairwise (fun a b => a.id ≠ b.id) (wireRange sensors outputs nI nO c i k) := by
  induction k generalizing c i with
  | zero => exact List.Pairwise.nil
  | succ k ih =>
    rw [wireRange]
    refine List.pairwise_cons.mpr ⟨?_, ih _ _⟩
    intro s hs
    have := wireRange_id_bounds sensors outputs nI nO _ _ _ s hs
    simp at this
    show c.idCount + 1 ≠ s.id
    omega

/-- The wiring loop of `newOrganism`, in closed form: when both arities are
positive, the counters do not wrap, and every sensor/output index resolves
to a neuron of the map with that id, the loop succeeds and appends exactly
the `wireRange` synapses. -/
theorem wireSynapses_eq (nI nO : Nat) (hI : 0 < nI) (hO : 0 < nO)
    (k : Nat) (i : Nat) (org : Organism) (c : Counters)
    (h1 : c.idCount + k < U64) (h2 : c.innovationCount + k < U64)
    (hsens : ∀ j, j < nI → ∃ n : Neuron, org.sensors.get? j = some n.id ∧
      mapLookup org.neurons n.id = some n)
    (houts : ∀ j, j < nO → ∃ n : Neuron, org.outputs.get? j = some n.id ∧
      mapLookup org.neurons n.id = some n) :
    wireSynapses nI nO i k (org, c) =
      some (List.foldl Organism.addSynapse org
          (wireRange org.sensors org.outputs nI nO c i k),
        ⟨c.idCount + k, c.innovationCount + k⟩) := by
  induction k generalizing i org c with
  | zero => simp [wireSynapses, wireRange]
  | succ k ih =>
    obtain ⟨inN, hinGet, hinLook⟩ := hsens (i % nI) (Nat.mod_lt i hI)
    obtain ⟨outN, houtGet, houtLook⟩ := houts (i % nO) (Nat.mod_lt i hO)
    rw [wireSynapses, if_neg (Nat.pos_iff_ne_zero.mp hI), if_neg (Nat.pos_iff_ne_zero.mp hO)]
    simp only [hinGet, houtGet, hinLook, houtLook]
    have hid : (c.idCount + 1) % U64 = c.idCount + 1 := Nat.mod_eq_of_lt (by omega)
    have hin : (c.innovationCount + 1) % U64 = c.innovationCount + 1 :=
      Nat.mod_eq_of_lt (by omega)
    simp only [newSynapse, nextID, nextInnovation, hid, hin]
    rw [ih (i + 1)
      (org.addSynapse ⟨c.idCount + 1, inN.id, outN.id, 1, true, c.innovationCount + 1⟩)
      ⟨c.idCount + 1, c.innovationCount + 1⟩ (by simp; omega) (by simp; omega)
      hsens houts]
    rw [wireRange]
    have egs : (Organism.addSynapse org
        ⟨c.idCount + 1, inN.id, outN.id, 1, true, c.innovationCount + 1⟩).sensors =
        org.sensors := rfl
    have ego : (Organism.addSynapse org
        ⟨c.idCount + 1, inN.id, outN.id, 1, true, c.innovationCount + 1⟩).outputs =
        org.outputs := rfl
    rw [egs, ego, List.foldl_cons]
    have e1 : c.idCount + 1 + k = c.idCount + (k + 1) := by omega
    have e2 : c.innovationCount + 1 + k = c.innovationCount + (k + 1) := by omega
    rw [e1, e2, hinGet, houtGet]
    simp [Option.getD]

theorem neuronsFromNW_length (kind : NeuronKind) (c : Counters) (n : Nat) :
    (neuronsFromNW kind c n).length = n := by
  simp [neuronsFromNW]

theorem neuronsFromNW_get? (kind : NeuronKind) (c : Counters) {n j : Nat} (hj : j < n) :
    (neuronsFromNW kind c n).get? j =
      some ⟨c.idCount + j + 1, 0, c.innovationCount + j + 1, kind, 0, 0, false, false⟩ := by
  unfold neuronsFromNW
  rw [List.get?_map, List.get?_range hj]
  rfl

theorem mem_neuronsFromNW {kind : NeuronKind} {c : Counters} {n : Nat} {x : Neuron}
    (hx : x ∈ neuronsFromNW kind c n) :
    x.kind = kind ∧ c.idCount + 1 ≤ x.id ∧ x.id ≤ c.idCount + n := by
  unfold neuronsFromNW at hx
  obtain ⟨k, hk, rfl⟩ := List.mem_map.mp hx
  have := List.mem_range.mp hk
  refine ⟨rfl, ?_, ?_⟩
  · simp
  · simp
    omega

theorem neuronsFromNW_pairwise_ne (kind : NeuronKind) (c : Counters) (n : Nat) :
    List.Pairwise (fun a b => a.id ≠ b.id) (neuronsFromNW kind c n) := by
  unfold neuronsFromNW
  rw [List.pairwise_map]
  refine (List.pairwise_lt_range n).imp ?_
  intro a b hab
  simp
  omega

theorem filterMap_kind_same (kind : NeuronKind) (ns : List Neuron)
    (hk : ∀ x ∈ ns, x.kind = kind) :
    ns.filterMap (fun x => if x.kind = kind then some x.id else none) =
      ns.map (fun x => x.id) := by
  induction ns with
  | nil => rfl
  | cons x rest ih =>
    rw [List.filterMap_cons, List.map_cons]
    rw [if_pos (hk x (List.mem_cons_self _ _))]
    rw [ih fun y hy => hk y (List.mem_cons_of_mem _ hy)]

theorem filterMap_kind_ne (kindP : NeuronKind) (ns : List Neuron)
    (hk : ∀ x ∈ ns, x.kind ≠ kindP) :
    ns.filterMap (fun x => if x.kind = kindP then some x.id else none) = [] := by
  induction ns with
  | nil => rfl
  | cons x rest ih =>
    rw [List.filterMap_cons]
    rw [if_neg (hk x (List.mem_cons_self _ _))]
    exact ih fun y hy => hk y (List.mem_cons_of_mem _ hy)

/-- The organism state after the two neuron-creation loops of
`newOrganism`, in closed form (proof scaffolding). -/
def baseOrg (nI nO : Nat) (cnt : Counters) : Organism :=
  List.foldl Organism.addNeuron
    (List.foldl Organism.addNeuron (_newOrganism nI nO)
      (neuronsFromNW NeuronKind.sensorNeuron cnt nI))
    (neuronsFromNW NeuronKind.outputNeuron ⟨cnt.idCount + nI, cnt.innovationCount + nI⟩ nO)

theorem baseOrg_sensors (nI nO : Nat) (cnt : Counters) :
    (baseOrg nI nO cnt).sensors =
      (neuronsFromNW NeuronKind.sensorNeuron cnt nI).map (fun x => x.id) := by
  unfold baseOrg
  rw [foldl_addNeuron_sensors, foldl_addNeuron_sensors]
  rw [filterMap_kind_same _ _ (fun x hx => (mem_neuronsFromNW hx).1)]
  rw [filterMap_kind_ne _ _ (fun x hx => by rw [(mem_neuronsFromNW hx).1]; simp)]
  simp [_newOrganism]

theorem baseOrg_outputs (nI nO : Nat) (cnt : Counters) :
    (baseOrg nI nO cnt).outputs =
      (neuronsFromNW NeuronKind.outputNeuron
        ⟨cnt.idCount + nI, cnt.innovationCount + nI⟩ nO).map (fun x => x.id) := by
  unfold baseOrg
  rw [foldl_addNeuron_outputs, foldl_addNeuron_outputs]
  rw [filterMap_kind_same _ _ (fun x hx => (mem_neuronsFromNW hx).1)]
  rw [filterMap_kind_ne _ _ (fun x hx => by rw [(mem_neuronsFromNW hx).1]; simp)]
  simp [_newOrganism]

theorem baseOrg_neurons (nI nO : Nat) (cnt : Counters) :
    (baseOrg nI nO cnt).neurons =
      (neuronsFromNW NeuronKind.sensorNeuron cnt nI).map (fun n => (n.id, n)) ++
        (neuronsFromNW NeuronKind.outputNeuron
          ⟨cnt.idCount + nI, cnt.innovationCount + nI⟩ nO).map (fun n => (n.id, n)) := by
  unfold baseOrg
  have h1 : (List.foldl Organism.addNeuron (_newOrganism nI nO)
      (neuronsFromNW NeuronKind.sensorNeuron cnt nI)).neurons =
      (neuronsFromNW NeuronKind.sensorNeuron cnt nI).map (fun n => (n.id, n)) := by
    rw [foldl_addNeuron_neurons _ _ (by intro n _ p hp; simp [_newOrganism] at hp)
      (neuronsFromNW_pairwise_ne _ _ _)]
    simp [_newOrganism]
  have hfresh : ∀ n ∈ neuronsFromNW NeuronKind.outputNeuron
      ⟨cnt.idCount + nI, cnt.innovationCount + nI⟩ nO,
      ∀ p ∈ (List.foldl Organism.addNeuron (_newOrganism nI nO)
        (neuronsFromNW NeuronKind.sensorNeuron cnt nI)).neurons, p.1 ≠ n.id := by
    intro n hn p hp
    rw [h1] at hp
    obtain ⟨s, hs, rfl⟩ := List.mem_map.mp hp
    have hb1 := (mem_neuronsFromNW hs).2.2
    have hb2 := (mem_neuronsFromNW hn).2.1
    simp at hb2 ⊢
    omega
  rw [foldl_addNeuron_neurons _ _ hfresh (neuronsFromNW_pairwise_ne _ _ _), h1]

theorem baseOrg_synapses (nI nO : Nat) (cnt : Counters) :
    (baseOrg nI nO cnt).synapses = [] := by
  unfold baseOrg
  rw [foldl_addNeuron_synapses, foldl_addNeuron_synapses]
  rfl

theorem baseOrg_sensors_get? (nI nO : Nat) (cnt : Counters) {j : Nat} (hj : j < nI) :
    (baseOrg nI nO cnt).sensors.get? j = some (cnt.idCount + j + 1) := by
  rw [baseOrg_sensors, List.get?_map, neuronsFromNW_get? _ _ hj]
  rfl

theorem baseOrg_outputs_get? (nI nO : Nat) (cnt : Counters) {j : Nat} (hj : j < nO) :
    (baseOrg nI nO cnt).outputs.get? j = some (cnt.idCount + nI + j + 1) := by
  rw [baseOrg_outputs, List.get?_map, neuronsFromNW_get? _ _ hj]
  rfl

theorem baseOrg_sensors_lookup (nI nO : Nat) (cnt : Counters) {j : Nat} (hj : j < nI) :
    ∃ n : Neuron, (baseOrg nI nO cnt).sensors.get? j = some n.id ∧
      mapLookup (baseOrg nI nO cnt).neurons n.id = some n := by
  refine ⟨⟨cnt.idCount + j + 1, 0, cnt.innovationCount + j + 1,
    NeuronKind.sensorNeuron, 0, 0, false, false⟩, baseOrg_sensors_get? nI nO cnt hj, ?_⟩
  rw [baseOrg_neurons]
  exact mapLookup_append_left
    (mapLookup_pairs (neuronsFromNW_pairwise_ne _ _ _) (neuronsFromNW_get? _ _ hj))

theorem baseOrg_outputs_lookup (nI nO : Nat) (cnt : Counters) {j : Nat} (hj : j < nO) :
    ∃ n : Neuron, (baseOrg nI nO cnt).outputs.get? j = some n.id ∧
      mapLookup (baseOrg nI nO cnt).neurons n.id = some n := by
  refine ⟨⟨cnt.idCount + nI + j + 1, 0, cnt.innovationCount + nI + j + 1,
    NeuronKind.outputNeuron, 0, 0, false, false⟩, ?_, ?_⟩
  · rw [baseOrg_outputs_get? nI nO cnt hj]
  · rw [baseOrg_neurons]
    have hskip : ∀ p ∈ (neuronsFromNW NeuronKind.sensorNeuron cnt nI).map
        (fun n => (n.id, n)), p.1 ≠ cnt.idCount + nI + j + 1 := by
      intro p hp
      obtain ⟨s, hs, rfl⟩ := List.mem_map.mp hp
      have := (mem_neuronsFromNW hs).2.2
      simp
      omega
    rw [mapLookup_append_right hskip]
    have hget := neuronsFromNW_get? NeuronKind.outputNeuron
      ⟨cnt.idCount + nI, cnt.innovationCount + nI⟩ hj
    exact mapLookup_pairs (neuronsFromNW_pairwise_ne _ _ _) hget

/-- `newOrganism` in closed form: the two neuron batches followed by the
wired synapses, with the final counter state. -/
theorem newOrganism_eq (nI nO : Nat) (cnt : Counters) (hI : 0 < nI) (hO : 0 < nO)
    (hidb : cnt.idCount + (nI + nO + max nI nO) < U64)
    (hinb : cnt.innovationCount + (nI + nO + max nI nO) < U64) :
    newOrganism nI nO cnt =
      some (List.foldl Organism.addSynapse (baseOrg nI nO cnt)
          (wireRange (baseOrg nI nO cnt).sensors (baseOrg nI nO cnt).outputs nI nO
            ⟨cnt.idCount + nI + nO, cnt.innovationCount + nI + nO⟩ 0 (max nI nO)),
        ⟨cnt.idCount + nI + nO + max nI nO,
          cnt.innovationCount + nI + nO + max nI nO⟩) := by
  unfold newOrganism
  rw [addKindNeurons_eq NeuronKind.sensorNeuron nI (_newOrganism nI nO) cnt
    (by omega) (by omega)]
  rw [addKindNeurons_eq NeuronKind.outputNeuron nO _
    ⟨cnt.idCount + nI, cnt.innovationCount + nI⟩ (by simp; omega) (by simp; omega)]
  have hwire := wireSynapses_eq nI nO hI hO (max nI nO) 0 (baseOrg nI nO cnt)
    ⟨cnt.idCount + nI + nO, cnt.innovationCount + nI + nO⟩ (by simp; omega) (by simp; omega)
    (fun j hj => baseOrg_sensors_lookup nI nO cnt hj)
    (fun j hj => baseOrg_outputs_lookup nI nO cnt hj)
  exact hwire

/-- C9: for every `nInputs ≥ 1` and `nOutputs ≥ 1` (and counters that do
not wrap, the invariant of the Go `uint64` counters in any realistic run),
`newOrganism` succeeds and produces a genome with exactly `nInputs` sensor
neurons, `nOutputs` output neurons, no hidden neurons, and exactly
`max nInputs nOutputs` synapses, each enabled with weight 1.0, the i-th
created synapse connecting sensor `i % nInputs` to output `i % nOutputs`. -/
theorem c9_newOrganism_initial_wiring (nI nO : Nat) (cnt : Counters)
    (hI : 1 ≤ nI) (hO : 1 ≤ nO)
    (hidb : cnt.idCount + (nI + nO + max nI nO) < U64)
    (hinb : cnt.innovationCount + (nI + nO + max nI nO) < U64) :
    ∃ org cnt2, newOrganism nI nO cnt = some (org, cnt2) ∧
      org.sensors.length = nI ∧
      org.outputs.length = nO ∧
      org.neurons.length = nI + nO ∧
      (∀ idv n, mapLookup org.neurons idv = some n → n.kind ≠ NeuronKind.hiddenNeuron) ∧
      org.synapses.length = max nI nO ∧
      (∀ i, i < max nI nO → ∃ p : Nat × Synapse, org.synapses.get? i = some p ∧
        p.2.enabled = true ∧ p.2.weight = 1 ∧
        org.sensors.get? (i % nI) = some p.2.in_ ∧
        org.outputs.get? (i % nO) = some p.2.out) := by
  have hfresh : ∀ s ∈ wireRange (baseOrg nI nO cnt).sensors (baseOrg nI nO cnt).outputs nI nO
      ⟨cnt.idCount + nI + nO, cnt.innovationCount + nI + nO⟩ 0 (max nI nO),
      ∀ p ∈ (baseOrg nI nO cnt).synapses, p.1 ≠ s.id := by
    intro s _ p hp
    rw [baseOrg_synapses] at hp
    simp at hp
  have hsyn : (List.foldl Organism.addSynapse (baseOrg nI nO cnt)
      (wireRange (baseOrg nI nO cnt).sensors (baseOrg nI nO cnt).outputs nI nO
        ⟨cnt.idCount + nI + nO, cnt.innovationCount + nI + nO⟩ 0 (max nI nO))).synapses =
      (wireRange (baseOrg nI nO cnt).sensors (baseOrg nI nO cnt).outputs nI nO
        ⟨cnt.idCount + nI + nO, cnt.innovationCount + nI + nO⟩ 0 (max nI nO)).map
        (fun s => (s.id, s)) := by
    rw [foldl_addSynapse_synapses _ _ hfresh (wireRange_pairwise_ne _ _ _ _ _ _ _),
      baseOrg_synapses]
    rfl
  refine ⟨_, _, newOrganism_eq nI nO cnt hI hO hidb hinb, ?_, ?_, ?_, ?_, ?_, ?_⟩
  · rw [foldl_addSynapse_sensors, baseOrg_sensors, List.length_map, neuronsFromNW_length]
  · rw [foldl_addSynapse_outputs, baseOrg_outputs, List.length_map, neuronsFromNW_length]
  · rw [foldl_addSynapse_neurons, baseOrg_neurons]
    simp [neuronsFromNW_length]
  · intro idv n h
    rw [foldl_addSynapse_neurons, baseOrg_neurons] at h
    have hmem := mapLookup_mem h
    rcases List.mem_append.mp hmem with hm | hm
    · obtain ⟨s, hs, heq⟩ := List.mem_map.mp hm
      have hn : n = s := by
        have := congrArg Prod.snd heq
        simpa using this.symm
      rw [hn, (mem_neuronsFromNW hs).1]
      simp
    · obtain ⟨s, hs, heq⟩ := List.mem_map.mp hm
      have hn : n = s := by
        have := congrArg Prod.snd heq
        simpa using this.symm
      rw [hn, (mem_neuronsFromNW hs).1]
      simp
  · rw [hsyn, List.length_map, wireRange_length]
  · intro i hi
    rw [hsyn, List.get?_map, wireRange_get? _ _ _ _ _ 0 _ i hi]
    refine ⟨_, rfl, rfl, rfl, ?_, ?_⟩
    · rw [foldl_addSynapse_sensors]
      have h0 : 0 + i = i := Nat.zero_add i
      rw [h0, baseOrg_sensors_get? nI nO cnt (Nat.mod_lt i hI)]
      simp
    · rw [foldl_addSynapse_outputs]
      have h0 : 0 + i = i := Nat.zero_add i
      rw [h0, baseOrg_outputs_get? nI nO cnt (Nat.mod_lt i hO)]
      simp

/-- Witness for `c9_newOrganism_initial_wiring` at one input, two outputs
and counters starting at 0. -/
theorem c9_newOrganism_initial_wiring_witness :
    (1 ≤ 1) ∧ (1 ≤ 2) ∧
    ((⟨0, 0⟩ : Counters).idCount + (1 + 2 + max 1 2) < U64) ∧
    ((⟨0, 0⟩ : Counters).innovationCount + (1 + 2 + max 1 2) < U64) ∧
    (∃ org cnt2, newOrganism 1 2 ⟨0, 0⟩ = some (org, cnt2) ∧
      org.sensors.length = 1 ∧
      org.outputs.length = 2 ∧
      org.neurons.length = 1 + 2 ∧
      (∀ idv n, mapLookup org.neurons idv = some n → n.kind ≠ NeuronKind.hiddenNeuron) ∧
      org.synapses.length = max 1 2 ∧
      (∀ i, i < max 1 2 → ∃ p : Nat × Synapse, org.synapses.get? i = some p ∧
        p.2.enabled = true ∧ p.2.weight = 1 ∧
        org.sensors.get? (i % 1) = some p.2.in_ ∧
        org.outputs.get? (i % 2) = some p.2.out)) :=
  ⟨le_refl 1, by norm_num, by norm_num [U64], by norm_num [U64],
    c9_newOrganism_initial_wiring 1 2 ⟨0, 0⟩ (le_refl 1) (by norm_num)
      (by norm_num [U64]) (by norm_num [U64])⟩

end Neat
